import Mathlib

/-!
Shallow embedding of `src/debugging.ts` from vscode-simple-jupyter-notebook.

The file models the two components of the debugging layer:

* `DebuggingManager` — `toggleDebugging` and `fixBreakpoints`, operating on the
  `notebookToDebugger` map and the global breakpoint store;
* `XeusDebugAdapter` — `handleMessage`, `dumpCell`, the two source-rewriting
  hooks installed in the constructor's kernel-message subscription, and the
  standalone `visitSources` walker.

JavaScript `Map` objects are embedded as association lists with
insertion-order `set` semantics (`mapSet` / `mapGet`); the asynchronous host
calls (`startDebugging`, `customRequest('dumpCell')`) are embedded as explicit
outcome parameters, and side effects (UI updates, error messages, batched
breakpoint operations, envelopes sent to the kernel) are returned as data.
-/

namespace JupyterDebug

/-- JS `Map.get`: first (unique) binding of the key, if any. -/
def mapGet {κ α : Type} [DecidableEq κ] (m : List (κ × α)) (k : κ) : Option α :=
  (m.find? (fun p => p.1 = k)).map (·.2)

/-- JS `Map.set`: overwrite the binding in place if the key is present,
otherwise append a new binding (insertion order preserved). -/
def mapSet {κ α : Type} [DecidableEq κ] (m : List (κ × α)) (k : κ) (v : α) :
    List (κ × α) :=
  if m.any (fun p => p.1 = k) then
    m.map (fun p => if p.1 = k then (k, v) else p)
  else
    m ++ [(k, v)]

/-- `vscode.Uri` restricted to the fields the code reads: scheme, path and
fragment. -/
structure Uri where
  scheme : String
  path : String
  fragment : String
deriving DecidableEq, Repr

/-- `Uri.toString()` for the URIs handled here. -/
def Uri.str (u : Uri) : String :=
  u.scheme ++ ":" ++ u.path ++ "#" ++ u.fragment

/-- `uri.with({ fragment: f })`. -/
def Uri.withFragment (u : Uri) (f : String) : Uri :=
  { u with fragment := f }

/-- A notebook cell: its URI and the text of its document
(`cell.document.getText()`). -/
structure Cell where
  uri : Uri
  text : String
deriving DecidableEq, Repr

/-- A notebook document: its ordered cells. -/
structure NotebookDocument where
  uri : Uri
  cells : List Cell
deriving DecidableEq, Repr

/-- JS `parseInt` on the strings this program feeds it (no sign, no leading
whitespace): the value of the leading run of decimal digits, `none` for `NaN`
when the string does not start with a digit. -/
def parseIntLeading (s : String) : Option Nat :=
  let ds := s.data.takeWhile Char.isDigit
  if ds.isEmpty then none
  else some (ds.foldl (fun n c => n * 10 + (c.toNat - 48)) 0)

/-- `ix.toString().padStart(8, '0')`. -/
def padStart8 (s : String) : String :=
  if s.length < 8 then String.mk (List.replicate (8 - s.length) '0') ++ s else s

/-- Node `path.basename` for the forward-slash paths used here: the component
after the last `/`. -/
def basename (p : String) : String :=
  match (p.splitOn "/").getLast? with
  | some s => s
  | none => p

/-- JS `s.indexOf(pre) === 0`: `s` starts with `pre` (character-list prefix
test, equivalent to `String.startsWith` but kernel-reducible). -/
def strStartsWith (s pre : String) : Bool :=
  pre.data.isPrefixOf s.data

/-- TS `Array.prototype.indexOf` (structural equality standing for reference
equality on cells, which are distinct objects): `-1` when absent. -/
def listIndexOf (cells : List Cell) (c : Cell) : Int :=
  match cells with
  | [] => -1
  | x :: rest =>
    if x = c then 0
    else
      let r := listIndexOf rest c
      if r < 0 then -1 else r + 1

/-! ## DebuggingManager -/

/-- `vscode.Range` of a breakpoint location (start/end line and character). -/
structure VRange where
  startLine : Nat
  startCharacter : Nat
  endLine : Nat
  endCharacter : Nat
deriving DecidableEq, Repr

/-- `vscode.Location`. -/
structure Location where
  uri : Uri
  range : VRange
deriving DecidableEq, Repr

/-- A `vscode.Breakpoint`: either a `SourceBreakpoint` or a
`FunctionBreakpoint` (any non-source breakpoint the store may hold). -/
inductive VBreakpoint where
  | source (location : Location) (enabled : Bool)
      (condition hitCondition logMessage : Option String)
  | func (functionName : String) (enabled : Bool)
      (condition hitCondition logMessage : Option String)
deriving DecidableEq, Repr

/-- One batched call to the breakpoint store. -/
inductive BpCall where
  | removeBreakpoints (bps : List VBreakpoint)
  | addBreakpoints (bps : List VBreakpoint)
deriving DecidableEq, Repr

/-- The body of the `doc.cells.forEach((cell, ix) => …)` loop of
`fixBreakpoints`: when `parseInt(cell.uri.fragment) !== ix`, record
`cell.uri.toString() ↦ cell.uri.with({fragment:
ix.toString().padStart(8,'0')})`. -/
def mismatchStep (m : List (String × Uri)) (p : Nat × Cell) :
    List (String × Uri) :=
  if parseIntLeading p.2.uri.fragment = some p.1 then m
  else mapSet m p.2.uri.str (p.2.uri.withFragment (padStart8 (Nat.repr p.1)))

/-- The `map` built by `fixBreakpoints`: for each cell whose parsed fragment
differs from its index, the stale address and its corrected URI. -/
def computeMismatchMap (doc : NotebookDocument) : List (String × Uri) :=
  doc.cells.enum.foldl mismatchStep []

/-- The loop over `vscode.debug.breakpoints` collecting `removeBpt` and
`addBpts` in order: a source breakpoint whose location URI is a key of `map`
is pushed to `removeBpt`, and a fresh `new SourceBreakpoint(new Location(s,
b.location.range))` is pushed to `addBpts`. -/
def collectBpts (map : List (String × Uri)) :
    List VBreakpoint → List VBreakpoint × List VBreakpoint
  | [] => ([], [])
  | b :: rest =>
    let ra := collectBpts map rest
    match b with
    | .source loc _ _ _ _ =>
      match mapGet map loc.uri.str with
      | some s => (b :: ra.1, .source ⟨s, loc.range⟩ true none none none :: ra.2)
      | none => ra
    | .func _ _ _ _ _ => ra

/-- Result of one `fixBreakpoints` run: the batched calls issued to
`vscode.debug` and the breakpoint store after they take effect. -/
structure FixOutcome where
  calls : List BpCall
  breakpoints : List VBreakpoint
deriving DecidableEq, Repr

/-- `DebuggingManager.fixBreakpoints`, with the global
`vscode.debug.breakpoints` store passed in and returned explicitly. -/
def fixBreakpoints (doc : NotebookDocument) (bpts : List VBreakpoint) :
    FixOutcome :=
  let map := computeMismatchMap doc
  if map.length > 0 then
    let ra := collectBpts map bpts
    let removeBpt := ra.1
    let addBpts := ra.2
    let calls :=
      (if removeBpt.length > 0 then [BpCall.removeBreakpoints removeBpt] else [])
      ++ (if addBpts.length > 0 then [BpCall.addBreakpoints addBpts] else [])
    { calls := calls
      breakpoints := bpts.filter (fun b => ¬ b ∈ removeBpt) ++ addBpts }
  else
    { calls := [], breakpoints := bpts }

/-- The `Debugger` object as far as the map is concerned: it records its
document (the promise machinery is external). -/
structure DebuggerObj where
  document : NotebookDocument
deriving DecidableEq, Repr

/-- Outcome of `await dbg.session` inside `toggleDebugging`. -/
inductive StartOutcome where
  | success
  | failure (err : String)
deriving DecidableEq, Repr

/-- Observable side effects of `toggleDebugging`. -/
inductive UIEffect where
  | stopDebugger
  | ensureKernel
  | showErrorMessage (msg : String)
  | updateDebuggerUI (doc : NotebookDocument) (showBreakpointMargin : Bool)
deriving DecidableEq, Repr

/-- `DebuggingManager.toggleDebugging`: `notebookToDebugger` passed and
returned explicitly; the `await dbg.session` resolution is the `outcome`
parameter. -/
def toggleDebugging (st : List (NotebookDocument × DebuggerObj))
    (doc : NotebookDocument) (outcome : StartOutcome) :
    List (NotebookDocument × DebuggerObj) × List UIEffect :=
  match mapGet st doc with
  | some _ => (st, [.stopDebugger])
  | none =>
    let dbg : DebuggerObj := ⟨doc⟩
    let st1 := mapSet st doc dbg
    match outcome with
    | .success =>
        (st1, [.ensureKernel, .updateDebuggerUI doc true])
    | .failure err =>
        (st1, [.ensureKernel,
               .showErrorMessage ("Can't start debugging (" ++ err ++ ")"),
               .updateDebuggerUI doc false])

/-! ## XeusDebugAdapter -/

/-- A DAP `Source`: the two fields the hooks touch (`name`, `path`) plus the
remaining protocol fields, opaque here and never touched. `none` stands for a
JS `undefined` field; an empty string is falsy like `undefined`. -/
structure Source where
  name : Option String
  path : Option String
  rest : String
deriving DecidableEq, Repr

/-- A DAP `Breakpoint` (protocol object, not a `vscode.Breakpoint`): its
optional `source` plus opaque remaining fields. -/
structure DapBreakpoint where
  source : Option Source
  rest : String
deriving DecidableEq, Repr

/-- A DAP `StackFrame`. -/
structure StackFrame where
  source : Option Source
  rest : String
deriving DecidableEq, Repr

/-- A DAP `Scope`. -/
structure Scope where
  source : Option Source
  rest : String
deriving DecidableEq, Repr

/-- The body of a DAP event, merged over the shapes `visitSources` casts to:
`output`/`loadedSource` read `body.source`, `breakpoint` reads
`body.breakpoint`. -/
structure EventBody where
  source : Option Source
  breakpoint : DapBreakpoint
  rest : String
deriving DecidableEq, Repr

/-- The `arguments` of a DAP request, merged over the shapes `visitSources`
casts to (all four visited commands read `arguments.source`). -/
structure RequestArguments where
  source : Option Source
  rest : String
deriving DecidableEq, Repr

/-- The body of a DAP response, merged over the shapes `visitSources` casts
to. -/
structure ResponseBody where
  stackFrames : List StackFrame
  sources : List Source
  scopes : List Scope
  breakpoints : List DapBreakpoint
  rest : String
deriving DecidableEq, Repr

/-- A `DebugProtocol.ProtocolMessage`, dispatched on its `type` tag.
`other` covers any further `type` value reaching `handleMessage`. -/
inductive ProtocolMessage where
  | event (event : String) (body : EventBody)
  | request (command : String) (arguments : RequestArguments)
  | response (command : String) (success : Bool) (body : Option ResponseBody)
  | other (type_ : String)
deriving DecidableEq, Repr

/-- `visitSources(msg, sourceHook)`: the structural walk at the bottom of
`debugging.ts`. The TS hook mutates the source in place; here it maps an
optional source to an optional source and the walk rebuilds the message. -/
def visitSources (hook : Option Source → Option Source) :
    ProtocolMessage → ProtocolMessage
  | .event e body =>
    if e = "output" then .event e { body with source := hook body.source }
    else if e = "loadedSource" then .event e { body with source := hook body.source }
    else if e = "breakpoint" then
      .event e { body with breakpoint :=
        { body.breakpoint with source := hook body.breakpoint.source } }
    else .event e body
  | .request c args =>
    if c = "setBreakpoints" then .request c { args with source := hook args.source }
    else if c = "breakpointLocations" then .request c { args with source := hook args.source }
    else if c = "source" then .request c { args with source := hook args.source }
    else if c = "gotoTargets" then .request c { args with source := hook args.source }
    else .request c args
  | .response c success body? =>
    if success then
      match body? with
      | some body =>
        if c = "stackTrace" then
          .response c success
            (some { body with
                    stackFrames := body.stackFrames.map
                      (fun f => { f with source := hook f.source }) })
        else if c = "loadedSources" then
          .response c success
            (some { body with
                    sources := body.sources.map
                      (fun s => (hook (some s)).getD s) })
        else if c = "scopes" then
          .response c success
            (some { body with
                    scopes := body.scopes.map
                      (fun s => { s with source := hook s.source }) })
        else if c = "setFunctionBreakpoints" then
          .response c success
            (some { body with
                    breakpoints := body.breakpoints.map
                      (fun b => { b with source := hook b.source }) })
        else if c = "setBreakpoints" then
          .response c success
            (some { body with
                    breakpoints := body.breakpoints.map
                      (fun b => { b with source := hook b.source }) })
        else .response c success body?
      | none => .response c success body?
    else .response c success body?
  | .other t => .other t

/-- The hook `handleMessage` passes to `visitSources` (editor → kernel): a
truthy path with a `cellToFile` binding is replaced by the kernel file path;
everything else is left alone. -/
def outgoingHook (cellToFile : List (String × String))
    (source : Option Source) : Option Source :=
  match source with
  | some s =>
    match s.path with
    | some p =>
      if p.isEmpty then source
      else
        match mapGet cellToFile p with
        | some f => some { s with path := some f }
        | none => source
    | none => source
  | none => source

/-- The hook installed on the kernel-message subscription (kernel → editor):
a truthy path with a `fileToCell` binding gets the cell's base filename plus
`", Cell N"` (N the cell's current 1-based index in its notebook, when found)
as its name and the cell's URI as its path. `doc` is `cell.notebook`, the
owning notebook document at rewrite time. -/
def incomingHook (doc : NotebookDocument) (fileToCell : List (String × Cell))
    (source : Option Source) : Option Source :=
  match source with
  | some s =>
    match s.path with
    | some p =>
      if p.isEmpty then source
      else
        match mapGet fileToCell p with
        | some cell =>
          let name0 := basename cell.uri.path
          let cellIndex := listIndexOf doc.cells cell
          let name1 :=
            if 0 ≤ cellIndex then
              name0 ++ ", Cell " ++ (cellIndex + 1).toNat.repr
            else name0
          some { s with name := some name1, path := some cell.uri.str }
        | none => source
    | none => source
  | none => source

/-- The two maps owned by one `XeusDebugAdapter` instance. -/
structure AdapterState where
  fileToCell : List (String × Cell)
  cellToFile : List (String × String)
deriving DecidableEq, Repr

/-- `XeusDebugAdapter.dumpCell`: locate the cell by exact URI match; if found,
issue `customRequest('dumpCell', …)` — the host's reply is the `dumpOutcome`
parameter (`some sourcePath` on success, `none` when the call throws) — and on
success write both map entries. Returns the new state and the number of
`customRequest` calls issued (0 or 1). -/
def dumpCell (doc : NotebookDocument) (st : AdapterState) (uri : String)
    (dumpOutcome : Option String) : AdapterState × Nat :=
  match doc.cells.find? (fun c => c.uri.str = uri) with
  | some cell =>
    match dumpOutcome with
    | some sourcePath =>
      ({ fileToCell := mapSet st.fileToCell sourcePath cell
         cellToFile := mapSet st.cellToFile cell.uri.str sourcePath }, 1)
    | none => (st, 1)
  | none => (st, 0)

/-- An envelope handed to `kernel.connection.sendRaw`. -/
inductive SentEnvelope where
  | debugRequestEnv (msg : ProtocolMessage)
  | debugReplyEnv (msg : ProtocolMessage)
deriving DecidableEq, Repr

/-- Result of one `handleMessage` call: the adapter state afterwards, the
envelope sent to the kernel (if any), the number of `customRequest('dumpCell')`
calls issued, and whether the `console.assert(false, …)` drop branch ran. -/
structure HandleResult where
  state : AdapterState
  sent : Option SentEnvelope
  dumpCalls : Nat
  assertedDrop : Bool
deriving DecidableEq, Repr

/-- `XeusDebugAdapter.handleMessage`: intercept `setBreakpoints` requests on
notebook-cell paths and materialize first; rewrite sources with the
cell→file map; dispatch by message type (request → debug-request envelope,
response → debug-reply envelope, anything else asserted and dropped). -/
def handleMessage (doc : NotebookDocument) (st : AdapterState)
    (msg : ProtocolMessage) (dumpOutcome : Option String) : HandleResult :=
  let stc :=
    match msg with
    | .request c args =>
      if c = "setBreakpoints" then
        match args.source with
        | some s =>
          match s.path with
          | some p =>
            if ¬ p.isEmpty ∧ strStartsWith p "vscode-notebook-cell:" then
              dumpCell doc st p dumpOutcome
            else (st, 0)
          | none => (st, 0)
        | none => (st, 0)
      else (st, 0)
    | _ => (st, 0)
  let st1 := stc.1
  let msg1 := visitSources (outgoingHook st1.cellToFile) msg
  match msg with
  | .request _ _ =>
    { state := st1, sent := some (.debugRequestEnv msg1),
      dumpCalls := stc.2, assertedDrop := false }
  | .response _ _ _ =>
    { state := st1, sent := some (.debugReplyEnv msg1),
      dumpCalls := stc.2, assertedDrop := false }
  | _ =>
    { state := st1, sent := none, dumpCalls := stc.2, assertedDrop := true }

/-- A sequence of `dumpCell` invocations on one adapter instance: each step
is the requested URI together with the host's reply for that call. -/
def runDumps (doc : NotebookDocument) :
    AdapterState → List (String × Option String) → AdapterState
  | st, [] => st
  | st, (uri, out) :: rest => runDumps doc (dumpCell doc st uri out).1 rest

/-! ## Statement-level helpers -/

/-- Whether a batched call is a `removeBreakpoints` call. -/
def isRemoveCall : BpCall → Bool
  | .removeBreakpoints _ => true
  | .addBreakpoints _ => false

/-- Whether a batched call is an `addBreakpoints` call. -/
def isAddCall : BpCall → Bool
  | .removeBreakpoints _ => false
  | .addBreakpoints _ => true

/-- All breakpoints removed across the batched calls of a run. -/
def removedOf : List BpCall → List VBreakpoint
  | [] => []
  | .removeBreakpoints bps :: rest => bps ++ removedOf rest
  | .addBreakpoints _ :: rest => removedOf rest

/-- All breakpoints added across the batched calls of a run. -/
def addedOf : List BpCall → List VBreakpoint
  | [] => []
  | .removeBreakpoints _ :: rest => addedOf rest
  | .addBreakpoints bps :: rest => bps ++ addedOf rest

/-- The truthy path of an optional source: the key the two hooks look up,
`none` when the source or its path is absent or empty. -/
def sourceKey : Option Source → Option String
  | some s =>
    match s.path with
    | some p => if p.isEmpty then none else some p
    | none => none
  | none => none

/-- The bijective cell↔file correspondence claimed of one adapter's two maps:
both key lists are duplicate-free (each address has exactly one entry), every
`cellToFile` entry `c ↦ f` is matched by the `fileToCell` entry for `f`
holding a cell with address `c`, and every `fileToCell` entry `f ↦ cell` is
matched by the `cellToFile` entry for `cell`'s address holding `f`. -/
def mapsBijective (st : AdapterState) : Prop :=
  (st.cellToFile.map Prod.fst).Nodup ∧
  (st.fileToCell.map Prod.fst).Nodup ∧
  (∀ e ∈ st.cellToFile, (mapGet st.fileToCell e.2).map (fun c => c.uri.str) = some e.1) ∧
  (∀ e ∈ st.fileToCell, mapGet st.cellToFile e.2.uri.str = some e.1)

instance (st : AdapterState) : Decidable (mapsBijective st) := by
  unfold mapsBijective
  infer_instance

/-- The successful materializations of a `runDumps` sequence: the cell found
for the requested URI together with the source path the host returned. -/
def successPairs (doc : NotebookDocument) :
    List (String × Option String) → List (Cell × String)
  | [] => []
  | (uri, out) :: rest =>
    match doc.cells.find? (fun c => c.uri.str = uri), out with
    | some cell, some p => (cell, p) :: successPairs doc rest
    | _, _ => successPairs doc rest

/-! ## Concrete fixtures used by counterexamples and witnesses -/

/-- URI of a cell carrying position fragment `00000001`. -/
def uA : Uri := ⟨"vscode-notebook-cell", "/nb.ipynb", "00000001"⟩

/-- URI of a cell carrying position fragment `00000000`. -/
def uB : Uri := ⟨"vscode-notebook-cell", "/nb.ipynb", "00000000"⟩

/-- Cell sitting at index 0 but carrying fragment `00000001`. -/
def cA : Cell := ⟨uA, "print(0)"⟩

/-- Cell sitting at index 1 but carrying fragment `00000000`. -/
def cB : Cell := ⟨uB, "print(1)"⟩

/-- A notebook whose two cells have been swapped: each cell's fragment names
the other cell's index. -/
def swapDoc : NotebookDocument := ⟨⟨"file", "/nb.ipynb", ""⟩, [cA, cB]⟩

/-- A source breakpoint anchored at the swapped cell `cA`. -/
def bpA : VBreakpoint := .source ⟨uA, ⟨1, 0, 1, 0⟩⟩ true none none none

/-- A function breakpoint, with a condition attached. -/
def bpF : VBreakpoint := .func "main" true (some "x > 0") none none

/-- A `setBreakpoints` request aimed at cell `cA`. -/
def sbMsgA : ProtocolMessage :=
  .request "setBreakpoints" ⟨some ⟨none, some uA.str, "r"⟩, "args"⟩

/-- URI whose fragment does not parse as a number at all. -/
def uN : Uri := ⟨"vscode-notebook-cell", "/nb.ipynb", "cell0"⟩

/-- A document with one cell whose fragment is non-numeric, so its corrected
address collides with no other cell's stale address. -/
def fragDoc : NotebookDocument := ⟨⟨"file", "/nb.ipynb", ""⟩, [⟨uN, "pass"⟩]⟩

/-- A source breakpoint anchored at `fragDoc`'s single (stale) cell address. -/
def bpN : VBreakpoint := .source ⟨uN, ⟨2, 0, 2, 0⟩⟩ true none none none

/-! ## Lemmas about the JS `Map` embedding -/

theorem mapGet_overwrite_self {κ α : Type} [DecidableEq κ]
    (m : List (κ × α)) (k : κ) (v : α) (h : m.any (fun p => p.1 = k) = true) :
    mapGet (m.map (fun p => if p.1 = k then (k, v) else p)) k = some v := by
  induction m with
  | nil => simp at h
  | cons p rest ih =>
    by_cases hp : p.1 = k
    · simp [mapGet, List.find?, hp]
    · have h' : rest.any (fun p => p.1 = k) = true := by
        simp [List.any_cons, hp] at h
        simpa using h
      simpa [mapGet, List.find?, hp] using ih h'

theorem mapGet_append_self {κ α : Type} [DecidableEq κ]
    (m : List (κ × α)) (k : κ) (v : α) (h : m.any (fun p => p.1 = k) = false) :
    mapGet (m ++ [(k, v)]) k = some v := by
  induction m with
  | nil => simp [mapGet, List.find?]
  | cons p rest ih =>
    simp [List.any_cons] at h
    simpa [mapGet, List.find?, h.1] using ih (by simpa using h.2)

theorem mapGet_mapSet_self {κ α : Type} [DecidableEq κ]
    (m : List (κ × α)) (k : κ) (v : α) : mapGet (mapSet m k v) k = some v := by
  unfold mapSet
  by_cases h : m.any (fun p => p.1 = k) = true
  · simpa [h] using mapGet_overwrite_self m k v h
  · simp only [Bool.not_eq_true] at h
    simpa [h] using mapGet_append_self m k v h

theorem mapGet_overwrite_ne {κ α : Type} [DecidableEq κ]
    (m : List (κ × α)) (k k' : κ) (v : α) (hne : k' ≠ k) :
    mapGet (m.map (fun p => if p.1 = k then (k, v) else p)) k' = mapGet m k' := by
  induction m with
  | nil => simp
  | cons p rest ih =>
    by_cases hp : p.1 = k
    · have hk : ¬ (k = k') := fun hkk => hne hkk.symm
      have hpk' : ¬ (p.1 = k') := by rw [hp]; exact hk
      simp only [List.map_cons, mapGet, hp, if_true]
      rw [List.find?_cons_of_neg _ (by simpa using hk),
        List.find?_cons_of_neg _ (by simpa using hpk')]
      exact ih
    · by_cases hp' : p.1 = k'
      · simp only [List.map_cons, mapGet, hp, if_false]
        rw [List.find?_cons_of_pos _ (by simpa using hp'),
          List.find?_cons_of_pos _ (by simpa using hp')]
      · simp only [List.map_cons, mapGet, hp, if_false]
        rw [List.find?_cons_of_neg _ (by simpa using hp'),
          List.find?_cons_of_neg _ (by simpa using hp')]
        exact ih

theorem mapGet_append_ne {κ α : Type} [DecidableEq κ]
    (m : List (κ × α)) (k k' : κ) (v : α) (hne : k' ≠ k) :
    mapGet (m ++ [(k, v)]) k' = mapGet m k' := by
  induction m with
  | nil =>
    have hk : ¬ (k = k') := fun hkk => hne hkk.symm
    simp only [List.nil_append, mapGet]
    rw [List.find?_cons_of_neg _ (by simpa using hk)]
  | cons p rest ih =>
    by_cases hp' : p.1 = k'
    · simp only [List.cons_append, mapGet]
      rw [List.find?_cons_of_pos _ (by simpa using hp'),
        List.find?_cons_of_pos _ (by simpa using hp')]
    · simp only [List.cons_append, mapGet]
      rw [List.find?_cons_of_neg _ (by simpa using hp'),
        List.find?_cons_of_neg _ (by simpa using hp')]
      exact ih

theorem mapGet_mapSet_ne {κ α : Type} [DecidableEq κ]
    (m : List (κ × α)) (k k' : κ) (v : α) (hne : k' ≠ k) :
    mapGet (mapSet m k v) k' = mapGet m k' := by
  unfold mapSet
  by_cases h : m.any (fun p => p.1 = k) = true
  · simpa [h] using mapGet_overwrite_ne m k k' v hne
  · simp only [Bool.not_eq_true] at h
    simpa [h] using mapGet_append_ne m k k' v hne

theorem mem_mapSet_cases {κ α : Type} [DecidableEq κ]
    {m : List (κ × α)} {k : κ} {v : α} {e : κ × α} (he : e ∈ mapSet m k v) :
    e = (k, v) ∨ (e ∈ m ∧ e.1 ≠ k) := by
  unfold mapSet at he
  by_cases h : m.any (fun p => p.1 = k) = true
  · simp only [h, if_true, List.mem_map] at he
    obtain ⟨p, hp, hpe⟩ := he
    by_cases hk : p.1 = k
    · left
      simp [hk] at hpe
      exact hpe.symm
    · right
      simp [hk] at hpe
      exact ⟨hpe ▸ hp, hpe ▸ hk⟩
  · rw [Bool.not_eq_true] at h
    simp only [h, Bool.false_eq_true, if_false, List.mem_append,
      List.mem_singleton] at he
    rcases he with he | he
    · right
      refine ⟨he, ?_⟩
      have h' : ∀ e ∈ m, ¬ (e.1 = k) := by
        simpa [List.any_eq_false] using h
      intro hk
      exact h' e he hk
    · left; exact he

theorem mapSet_keys_nodup {κ α : Type} [DecidableEq κ]
    {m : List (κ × α)} (k : κ) (v : α) (hm : (m.map Prod.fst).Nodup) :
    ((mapSet m k v).map Prod.fst).Nodup := by
  unfold mapSet
  by_cases h : m.any (fun p => p.1 = k) = true
  · simp only [h, if_true]
    have : (m.map (fun p => if p.1 = k then (k, v) else p)).map Prod.fst
        = m.map Prod.fst := by
      rw [List.map_map]
      refine List.map_congr_left ?_
      intro p _
      by_cases hp : p.1 = k <;> simp [hp]
    rw [this]; exact hm
  · rw [Bool.not_eq_true] at h
    simp only [h, Bool.false_eq_true, if_false, List.map_append, List.map_cons,
      List.map_nil]
    rw [List.nodup_append]
    refine ⟨hm, by simp, ?_⟩
    intro a ha hb
    simp only [List.mem_singleton] at hb
    have h' : ∀ e ∈ m, ¬ (e.1 = k) := by
      simpa [List.any_eq_false] using h
    simp only [List.mem_map] at ha
    obtain ⟨p, hp, hpa⟩ := ha
    exact h' p hp (hpa.trans hb)

theorem mapGet_mem {κ α : Type} [DecidableEq κ]
    {m : List (κ × α)} {k : κ} {v : α} (h : mapGet m k = some v) : (k, v) ∈ m := by
  unfold mapGet at h
  obtain ⟨p, hp, hpv⟩ := Option.map_eq_some'.mp h
  have hmem := List.mem_of_find?_eq_some hp
  have hpred := List.find?_some hp
  simp only [decide_eq_true_eq] at hpred
  have : p = (k, v) := by
    cases p
    simp_all
  exact this ▸ hmem

theorem mapGet_isSome_of_any {κ α : Type} [DecidableEq κ]
    {m : List (κ × α)} {k : κ} (h : mapGet m k = none) :
    ∀ e ∈ m, e.1 ≠ k := by
  intro e he hk
  unfold mapGet at h
  rw [Option.map_eq_none'] at h
  have := List.find?_eq_none.mp h e he
  simp [hk] at this

/-! ## C1: session-start failure and the document→session map -/

/-- C1 (counterexample): starting with an empty map, a `toggleDebugging`
invocation whose session future rejects leaves the entry for `doc` in the
map — the claim that the map contains no entry for `doc` after a
session-start failure is false. -/
theorem C1_counterexample :
    mapGet (toggleDebugging [] swapDoc (.failure "Error: kernel stopped")).1
      swapDoc = some ⟨swapDoc⟩ := by
  decide

/-- C1 (amended): when `toggleDebugging(doc)` creates a new Session whose
future then rejects, the invocation surfaces the error message and disables
the breakpoint-margin UI, but the document-to-Session map still contains the
entry for `doc` after the invocation completes — the entry is not removed in
the catch branch. -/
theorem C1_failure_keeps_entry (st : List (NotebookDocument × DebuggerObj))
    (doc : NotebookDocument) (err : String) (h : mapGet st doc = none) :
    mapGet (toggleDebugging st doc (.failure err)).1 doc = some ⟨doc⟩ ∧
    (toggleDebugging st doc (.failure err)).2 =
      [.ensureKernel,
       .showErrorMessage ("Can't start debugging (" ++ err ++ ")"),
       .updateDebuggerUI doc false] := by
  unfold toggleDebugging
  rw [h]
  exact ⟨mapGet_mapSet_self st doc ⟨doc⟩, rfl⟩

/-- C1 witness: the amended theorem applied to the empty map and a concrete
document. -/
theorem C1_failure_keeps_entry_witness :
    mapGet ([] : List (NotebookDocument × DebuggerObj)) swapDoc = none ∧
    (mapGet (toggleDebugging [] swapDoc (.failure "e")).1 swapDoc
        = some ⟨swapDoc⟩ ∧
      (toggleDebugging [] swapDoc (.failure "e")).2 =
        [.ensureKernel, .showErrorMessage ("Can't start debugging (" ++ "e" ++ ")"),
         .updateDebuggerUI swapDoc false]) :=
  ⟨rfl, C1_failure_keeps_entry [] swapDoc "e" rfl⟩

/-! ## C7: outbound dispatch by message type -/

/-- C7: for every editor-originated message, `handleMessage` sends a request
as a debug-request envelope carrying the source-rewritten message, sends a
response as a debug-reply envelope, and asserts and drops any other message
kind — nothing is sent to the kernel and the adapter state is untouched in
the drop case, with no exception propagated. -/
theorem C7_dispatch_by_type (doc : NotebookDocument) (st : AdapterState)
    (outcome : Option String) :
    (∀ c args,
      (handleMessage doc st (.request c args) outcome).sent =
        some (.debugRequestEnv (visitSources
          (outgoingHook
            (handleMessage doc st (.request c args) outcome).state.cellToFile)
          (.request c args))) ∧
      (handleMessage doc st (.request c args) outcome).assertedDrop = false) ∧
    (∀ c success body,
      (handleMessage doc st (.response c success body) outcome).sent =
        some (.debugReplyEnv (visitSources (outgoingHook st.cellToFile)
          (.response c success body))) ∧
      (handleMessage doc st (.response c success body) outcome).assertedDrop
        = false ∧
      (handleMessage doc st (.response c success body) outcome).state = st ∧
      (handleMessage doc st (.response c success body) outcome).dumpCalls = 0) ∧
    (∀ e body,
      (handleMessage doc st (.event e body) outcome).sent = none ∧
      (handleMessage doc st (.event e body) outcome).assertedDrop = true ∧
      (handleMessage doc st (.event e body) outcome).state = st) ∧
    (∀ t,
      (handleMessage doc st (.other t) outcome).sent = none ∧
      (handleMessage doc st (.other t) outcome).assertedDrop = true ∧
      (handleMessage doc st (.other t) outcome).state = st) :=
  ⟨fun _ _ => ⟨rfl, rfl⟩,
   fun _ _ _ => ⟨rfl, rfl, rfl, rfl⟩,
   fun _ _ => ⟨rfl, rfl, rfl⟩,
   fun _ => ⟨rfl, rfl, rfl⟩⟩

/-! ## C6: unmapped passthrough -/

/-- C6: in each rewrite direction separately, a source whose (truthy) path
has no entry in that direction's map — `cellToFile` for editor→kernel,
`fileToCell` for kernel→editor — is returned completely unchanged by that
direction's hook (path, display name and every other field identical),
regardless of what the other direction's map contains. -/
theorem C6_unmapped_passthrough :
    (∀ (cellToFile : List (String × String)) (source : Option Source),
      (∀ p, sourceKey source = some p → mapGet cellToFile p = none) →
      outgoingHook cellToFile source = source) ∧
    (∀ (doc : NotebookDocument) (fileToCell : List (String × Cell))
        (source : Option Source),
      (∀ p, sourceKey source = some p → mapGet fileToCell p = none) →
      incomingHook doc fileToCell source = source) := by
  constructor
  · intro cellToFile source hc
    cases source with
    | none => rfl
    | some s =>
      cases hpth : s.path with
      | none => simp [outgoingHook, hpth]
      | some p =>
        by_cases hemp : p.isEmpty
        · simp [outgoingHook, hpth, hemp]
        · have hm := hc p (by simp [sourceKey, hpth, hemp])
          simp [outgoingHook, hpth, hemp, hm]
  · intro doc fileToCell source hf
    cases source with
    | none => rfl
    | some s =>
      cases hpth : s.path with
      | none => simp [incomingHook, hpth]
      | some p =>
        by_cases hemp : p.isEmpty
        · simp [incomingHook, hpth, hemp]
        · have hm := hf p (by simp [sourceKey, hpth, hemp])
          simp [incomingHook, hpth, hemp, hm]

/-- C6 witness: an outbound source whose path is a `fileToCell` key but not a
`cellToFile` key passes the editor→kernel hook unchanged, and an inbound
source whose path is a `cellToFile` key but not a `fileToCell` key passes the
kernel→editor hook unchanged — only the direction-relevant map matters. -/
theorem C6_unmapped_passthrough_witness :
    (∀ p, sourceKey (some ⟨none, some "/tmp/f1.py", "x"⟩) = some p →
      mapGet [(uA.str, "/tmp/f1.py")] p = none) ∧
    (∀ p, sourceKey (some ⟨none, some uA.str, "y"⟩) = some p →
      mapGet [("/tmp/f1.py", cA)] p = none) ∧
    outgoingHook [(uA.str, "/tmp/f1.py")]
        (some ⟨none, some "/tmp/f1.py", "x"⟩)
      = some ⟨none, some "/tmp/f1.py", "x"⟩ ∧
    incomingHook swapDoc [("/tmp/f1.py", cA)] (some ⟨none, some uA.str, "y"⟩)
      = some ⟨none, some uA.str, "y"⟩ :=
  ⟨by decide, by decide,
   C6_unmapped_passthrough.1 [(uA.str, "/tmp/f1.py")]
     (some ⟨none, some "/tmp/f1.py", "x"⟩) (by decide),
   C6_unmapped_passthrough.2 swapDoc [("/tmp/f1.py", cA)]
     (some ⟨none, some uA.str, "y"⟩) (by decide)⟩

/-! ## C5: kernel→editor source rewrite -/

/-- C5: a kernel-originated source whose path is a key of `fileToCell` gets
its path replaced by the cell's address and its name set to the cell's base
filename followed by `", Cell N"`, where `N` is the cell's 1-based index in
its document computed at rewrite time. -/
theorem C5_incoming_rewrite (doc : NotebookDocument)
    (fileToCell : List (String × Cell)) (s : Source) (p : String)
    (cell : Cell) (i : Nat)
    (hp : s.path = some p) (hne : p.isEmpty = false)
    (hmap : mapGet fileToCell p = some cell)
    (hidx : listIndexOf doc.cells cell = Int.ofNat i) :
    incomingHook doc fileToCell (some s) =
      some { s with
             name := some (basename cell.uri.path ++ ", Cell " ++ Nat.repr (i + 1)),
             path := some cell.uri.str } := by
  have h0 : (0 : Int) ≤ Int.ofNat i := Int.ofNat_nonneg i
  have htn : (Int.ofNat i + 1).toNat = i + 1 := by
    rw [Int.ofNat_eq_natCast] at h0 ⊢
    omega
  simp [incomingHook, hp, hne, hmap, hidx, htn, h0, Nat.repr]

/-- C5 witness: the path `/tmp/f1.py` maps to the cell `cA`, which currently
sits at index 0 of `swapDoc`, so the rewritten source is named
`"nb.ipynb, Cell 1"` and addressed at the cell's URI. -/
theorem C5_incoming_rewrite_witness :
    (⟨none, some "/tmp/f1.py", "r"⟩ : Source).path = some "/tmp/f1.py" ∧
    mapGet [("/tmp/f1.py", cA)] "/tmp/f1.py" = some cA ∧
    listIndexOf swapDoc.cells cA = Int.ofNat 0 ∧
    incomingHook swapDoc [("/tmp/f1.py", cA)]
        (some ⟨none, some "/tmp/f1.py", "r"⟩) =
      some ⟨some (basename cA.uri.path ++ ", Cell " ++ Nat.repr (0 + 1)),
            some cA.uri.str, "r"⟩ :=
  ⟨rfl, by decide, by decide,
   C5_incoming_rewrite swapDoc [("/tmp/f1.py", cA)]
     ⟨none, some "/tmp/f1.py", "r"⟩ "/tmp/f1.py" cA 0
     rfl rfl (by decide) (by decide)⟩

/-! ## C2: materialization on every setBreakpoints request -/

/-- C2 (counterexample): a second `setBreakpoints` request for the very same
cell address issues another `dumpCell` materialization call (`dumpCalls = 1`,
not `0`), and the forwarded request carries the freshly returned path
`/tmp/f2.py` rather than the cached `/tmp/f1.py` — the claim that subsequent
requests use the cached correspondence without re-materializing is false. -/
theorem C2_counterexample :
    (handleMessage swapDoc
        (handleMessage swapDoc ⟨[], []⟩ sbMsgA (some "/tmp/f1.py")).state
        sbMsgA (some "/tmp/f2.py")).dumpCalls = 1 ∧
    (handleMessage swapDoc
        (handleMessage swapDoc ⟨[], []⟩ sbMsgA (some "/tmp/f1.py")).state
        sbMsgA (some "/tmp/f2.py")).sent =
      some (.debugRequestEnv (.request "setBreakpoints"
        ⟨some ⟨none, some "/tmp/f2.py", "r"⟩, "args"⟩)) := by
  decide

/-- C2 (amended): every `setBreakpoints` request whose source path is a
notebook-cell address naming a cell of the document triggers exactly one
materialization call before the request is forwarded — including repeated
requests for an already-materialized address; the cached correspondence is
used for path rewriting but never to skip the `dumpCell` call, and a
successful call (re)writes the cell→file entry with the returned path. -/
theorem C2_materializes_every_time (doc : NotebookDocument) (st : AdapterState)
    (args : RequestArguments) (s : Source) (p : String) (cell : Cell)
    (outcome : Option String)
    (hs : args.source = some s) (hp : s.path = some p)
    (hne : p.isEmpty = false)
    (hpre : strStartsWith p "vscode-notebook-cell:" = true)
    (hfind : doc.cells.find? (fun c => c.uri.str = p) = some cell) :
    (handleMessage doc st (.request "setBreakpoints" args) outcome).dumpCalls
      = 1 ∧
    (∀ sp, outcome = some sp →
      mapGet (handleMessage doc st
          (.request "setBreakpoints" args) outcome).state.cellToFile
        cell.uri.str = some sp) := by
  have hcond : ¬ p.isEmpty = true ∧ strStartsWith p "vscode-notebook-cell:" = true :=
    ⟨by simp [hne], hpre⟩
  simp only [handleMessage, hs, hp, if_pos hcond, dumpCell, hfind]
  cases outcome with
  | none => exact ⟨rfl, fun sp hsp => by cases hsp⟩
  | some q =>
    refine ⟨rfl, fun sp hsp => ?_⟩
    cases hsp
    exact mapGet_mapSet_self _ _ _

/-- C2 witness: the amended theorem at a concrete request for cell `cA` of
`swapDoc` with a successful dump returning `/tmp/f1.py`. -/
theorem C2_materializes_every_time_witness :
    (⟨some ⟨none, some uA.str, "r"⟩, "args"⟩ : RequestArguments).source
        = some ⟨none, some uA.str, "r"⟩ ∧
    swapDoc.cells.find? (fun c => c.uri.str = uA.str) = some cA ∧
    ((handleMessage swapDoc ⟨[], []⟩
        (.request "setBreakpoints" ⟨some ⟨none, some uA.str, "r"⟩, "args"⟩)
        (some "/tmp/f1.py")).dumpCalls = 1 ∧
     (∀ sp, (some "/tmp/f1.py" : Option String) = some sp →
       mapGet (handleMessage swapDoc ⟨[], []⟩
           (.request "setBreakpoints" ⟨some ⟨none, some uA.str, "r"⟩, "args"⟩)
           (some "/tmp/f1.py")).state.cellToFile cA.uri.str = some sp)) :=
  ⟨rfl, by decide,
   C2_materializes_every_time swapDoc ⟨[], []⟩
     ⟨some ⟨none, some uA.str, "r"⟩, "args"⟩ ⟨none, some uA.str, "r"⟩
     uA.str cA (some "/tmp/f1.py") rfl rfl (by decide) (by decide)
     (by decide)⟩

/-! ## C9: the source visitor's closed table -/

/-- C9: `visitSources` invokes the hook on exactly the source-location fields
of the closed table — events `output`/`loadedSource`/`breakpoint`, requests
`setBreakpoints`/`breakpointLocations`/`source`/`gotoTargets`, and successful
responses `stackTrace`/`loadedSources`/`scopes`/`setFunctionBreakpoints`/
`setBreakpoints` — rewriting only that field; every other sub-kind, every
unsuccessful response and every body-less response is returned untouched. -/
theorem C9_visitor_closed_table (hook : Option Source → Option Source) :
    (∀ e body, e ≠ "output" → e ≠ "loadedSource" → e ≠ "breakpoint" →
      visitSources hook (.event e body) = .event e body) ∧
    (∀ c args, c ≠ "setBreakpoints" → c ≠ "breakpointLocations" →
      c ≠ "source" → c ≠ "gotoTargets" →
      visitSources hook (.request c args) = .request c args) ∧
    (∀ c body?, visitSources hook (.response c false body?)
      = .response c false body?) ∧
    (∀ c, visitSources hook (.response c true none) = .response c true none) ∧
    (∀ c body, c ≠ "stackTrace" → c ≠ "loadedSources" → c ≠ "scopes" →
      c ≠ "setFunctionBreakpoints" → c ≠ "setBreakpoints" →
      visitSources hook (.response c true (some body))
        = .response c true (some body)) ∧
    (∀ t, visitSources hook (.other t) = .other t) ∧
    (∀ body, visitSources hook (.event "output" body)
      = .event "output" { body with source := hook body.source }) ∧
    (∀ body, visitSources hook (.event "loadedSource" body)
      = .event "loadedSource" { body with source := hook body.source }) ∧
    (∀ body, visitSources hook (.event "breakpoint" body)
      = .event "breakpoint"
          { body with breakpoint :=
              { body.breakpoint with source := hook body.breakpoint.source } }) ∧
    (∀ args, visitSources hook (.request "setBreakpoints" args)
      = .request "setBreakpoints" { args with source := hook args.source }) ∧
    (∀ args, visitSources hook (.request "breakpointLocations" args)
      = .request "breakpointLocations" { args with source := hook args.source }) ∧
    (∀ args, visitSources hook (.request "source" args)
      = .request "source" { args with source := hook args.source }) ∧
    (∀ args, visitSources hook (.request "gotoTargets" args)
      = .request "gotoTargets" { args with source := hook args.source }) ∧
    (∀ body, visitSources hook (.response "stackTrace" true (some body))
      = .response "stackTrace" true
          (some { body with
                  stackFrames := body.stackFrames.map
                    (fun f => { f with source := hook f.source }) })) ∧
    (∀ body, visitSources hook (.response "loadedSources" true (some body))
      = .response "loadedSources" true
          (some { body with
                  sources := body.sources.map
                    (fun s => (hook (some s)).getD s) })) ∧
    (∀ body, visitSources hook (.response "scopes" true (some body))
      = .response "scopes" true
          (some { body with
                  scopes := body.scopes.map
                    (fun s => { s with source := hook s.source }) })) ∧
    (∀ body,
      visitSources hook (.response "setFunctionBreakpoints" true (some body))
      = .response "setFunctionBreakpoints" true
          (some { body with
                  breakpoints := body.breakpoints.map
                    (fun b => { b with source := hook b.source }) })) ∧
    (∀ body, visitSources hook (.response "setBreakpoints" true (some body))
      = .response "setBreakpoints" true
          (some { body with
                  breakpoints := body.breakpoints.map
                    (fun b => { b with source := hook b.source }) })) :=
  ⟨fun _ body h1 h2 h3 => by simp [visitSources, h1, h2, h3],
   fun _ args h1 h2 h3 h4 => by simp [visitSources, h1, h2, h3, h4],
   fun _ body? => by simp [visitSources],
   fun _ => by simp [visitSources],
   fun _ body h1 h2 h3 h4 h5 => by simp [visitSources, h1, h2, h3, h4, h5],
   fun _ => rfl,
   fun _ => by simp [visitSources],
   fun _ => by simp [visitSources],
   fun _ => by simp [visitSources],
   fun _ => by simp [visitSources],
   fun _ => by simp [visitSources],
   fun _ => by simp [visitSources],
   fun _ => by simp [visitSources],
   fun _ => by simp [visitSources],
   fun _ => by simp [visitSources],
   fun _ => by simp [visitSources],
   fun _ => by simp [visitSources],
   fun _ => by simp [visitSources]⟩

/-- C9 witness: out-of-table messages (a `continued` event, a `stackTrace`
request, an unsuccessful response, an unlisted successful response) pass
through the visitor untouched, and an in-table `output` event has exactly its
`body.source` rewritten. -/
theorem C9_visitor_closed_table_witness :
    ("continued" : String) ≠ "output" ∧
    visitSources (fun _ => none) (.event "continued" ⟨none, ⟨none, "b"⟩, "x"⟩)
      = .event "continued" ⟨none, ⟨none, "b"⟩, "x"⟩ ∧
    visitSources (fun _ => none) (.request "stackTrace" ⟨none, "a"⟩)
      = .request "stackTrace" ⟨none, "a"⟩ ∧
    visitSources (fun _ => none) (.response "stackTrace" false none)
      = .response "stackTrace" false none ∧
    visitSources (fun _ => none)
        (.response "evaluate" true (some ⟨[], [], [], [], "r"⟩))
      = .response "evaluate" true (some ⟨[], [], [], [], "r"⟩) ∧
    visitSources (fun _ => none)
        (.event "output" ⟨some ⟨some "n", some "p", "z"⟩, ⟨none, "b"⟩, "x"⟩)
      = .event "output" ⟨none, ⟨none, "b"⟩, "x"⟩ :=
  ⟨by decide,
   (C9_visitor_closed_table (fun _ => none)).1 "continued" _
     (by decide) (by decide) (by decide),
   (C9_visitor_closed_table (fun _ => none)).2.1 "stackTrace" _
     (by decide) (by decide) (by decide) (by decide),
   (C9_visitor_closed_table (fun _ => none)).2.2.1 "stackTrace" none,
   (C9_visitor_closed_table (fun _ => none)).2.2.2.2.1 "evaluate" _
     (by decide) (by decide) (by decide) (by decide) (by decide),
   (C9_visitor_closed_table (fun _ => none)).2.2.2.2.2.2.1 _⟩

/-! ## Lemmas about fixBreakpoints -/

theorem mismatch_fold_lookup_none (l : List (Nat × Cell)) :
    ∀ (acc : List (String × Uri)) (k : String),
    (∀ q ∈ l, q.2.uri.str ≠ k) →
    mapGet (l.foldl mismatchStep acc) k = mapGet acc k := by
  induction l with
  | nil => intro acc k _; rfl
  | cons q rest ih =>
    intro acc k h
    rw [List.foldl_cons,
      ih _ k (fun q' hq' => h q' (List.mem_cons_of_mem q hq'))]
    unfold mismatchStep
    split
    · rfl
    · exact mapGet_mapSet_ne acc _ k _ (Ne.symm (h q (List.mem_cons_self q rest)))

theorem mismatch_fold_lookup_mem (l : List (Nat × Cell)) :
    ∀ (acc : List (String × Uri)) (ix : Nat) (cell : Cell),
    (ix, cell) ∈ l → parseIntLeading cell.uri.fragment ≠ some ix →
    (∀ q ∈ l, q.2.uri.str = cell.uri.str → q = (ix, cell)) →
    mapGet (l.foldl mismatchStep acc) cell.uri.str
      = some (cell.uri.withFragment (padStart8 (Nat.repr ix))) := by
  induction l with
  | nil => intro acc ix cell hmem; cases hmem
  | cons q rest ih =>
    intro acc ix cell hmem hmm huniq
    rw [List.foldl_cons]
    by_cases hq : q = (ix, cell)
    · subst hq
      by_cases hrest : (ix, cell) ∈ rest
      · exact ih _ ix cell hrest hmm
          (fun q' hq' he => huniq q' (List.mem_cons_of_mem _ hq') he)
      · have hnone : ∀ q' ∈ rest, q'.2.uri.str ≠ cell.uri.str := by
          intro q' hq' he
          exact hrest ((huniq q' (List.mem_cons_of_mem _ hq') he) ▸ hq')
        rw [mismatch_fold_lookup_none rest _ _ hnone]
        simp only [mismatchStep]
        rw [if_neg hmm]
        exact mapGet_mapSet_self _ _ _
    · have hmem' : (ix, cell) ∈ rest := by
        rcases List.mem_cons.mp hmem with h | h
        · exact absurd h.symm hq
        · exact h
      exact ih _ ix cell hmem' hmm
        (fun q' hq' he => huniq q' (List.mem_cons_of_mem _ hq') he)

theorem collectBpts_mem (map : List (String × Uri)) (l : List VBreakpoint) :
    ∀ loc e c hc lg s, VBreakpoint.source loc e c hc lg ∈ l →
    mapGet map loc.uri.str = some s →
    VBreakpoint.source loc e c hc lg ∈ (collectBpts map l).1 ∧
    VBreakpoint.source ⟨s, loc.range⟩ true none none none
      ∈ (collectBpts map l).2 := by
  induction l with
  | nil => intro loc e c hc lg s hmem; cases hmem
  | cons b rest ih =>
    intro loc e c hc lg s hmem hget
    rcases List.mem_cons.mp hmem with hb | hb
    · rw [← hb]
      simp [collectBpts, hget]
    · obtain ⟨h1, h2⟩ := ih loc e c hc lg s hb hget
      cases b with
      | func nm en cn hn ln => simpa [collectBpts] using ⟨h1, h2⟩
      | source loc2 e2 c2 hc2 lg2 =>
        cases hg2 : mapGet map loc2.uri.str with
        | none => simpa [collectBpts, hg2] using ⟨h1, h2⟩
        | some s2 =>
          simp only [collectBpts, hg2, List.mem_cons]
          exact ⟨Or.inr h1, Or.inr h2⟩

theorem collectBpts_remove_shape (map : List (String × Uri))
    (l : List VBreakpoint) :
    ∀ b ∈ (collectBpts map l).1, b ∈ l ∧
      ∃ loc e c hc lg s, b = VBreakpoint.source loc e c hc lg ∧
        mapGet map loc.uri.str = some s := by
  induction l with
  | nil => intro b hb; cases hb
  | cons b0 rest ih =>
    intro b hb
    cases hb0 : b0 with
    | func nm en cn hn ln =>
      rw [hb0] at hb
      simp only [collectBpts] at hb
      obtain ⟨h1, h2⟩ := ih b hb
      exact ⟨List.mem_cons_of_mem _ h1, h2⟩
    | source loc2 e2 c2 hc2 lg2 =>
      rw [hb0] at hb
      cases hg2 : mapGet map loc2.uri.str with
      | none =>
        simp only [collectBpts, hg2] at hb
        obtain ⟨h1, h2⟩ := ih b hb
        exact ⟨List.mem_cons_of_mem _ h1, h2⟩
      | some s2 =>
        simp only [collectBpts, hg2, List.mem_cons] at hb
        rcases hb with hb | hb
        · subst hb
          exact ⟨hb0 ▸ List.mem_cons_self _ _,
            loc2, e2, c2, hc2, lg2, s2, rfl, hg2⟩
        · obtain ⟨h1, h2⟩ := ih b hb
          exact ⟨List.mem_cons_of_mem _ h1, h2⟩

theorem collectBpts_add_shape (map : List (String × Uri))
    (l : List VBreakpoint) :
    ∀ b ∈ (collectBpts map l).2,
      ∃ u rg, b = VBreakpoint.source ⟨u, rg⟩ true none none none ∧
        ∃ k, mapGet map k = some u := by
  induction l with
  | nil => intro b hb; cases hb
  | cons b0 rest ih =>
    intro b hb
    cases hb0 : b0 with
    | func nm en cn hn ln =>
      rw [hb0] at hb
      simp only [collectBpts] at hb
      exact ih b hb
    | source loc2 e2 c2 hc2 lg2 =>
      rw [hb0] at hb
      cases hg2 : mapGet map loc2.uri.str with
      | none =>
        simp only [collectBpts, hg2] at hb
        exact ih b hb
      | some s2 =>
        simp only [collectBpts, hg2, List.mem_cons] at hb
        rcases hb with hb | hb
        · exact ⟨s2, loc2.range, hb, loc2.uri.str, hg2⟩
        · exact ih b hb

theorem collectBpts_nil (map : List (String × Uri)) (l : List VBreakpoint)
    (h : ∀ loc e c hc lg, VBreakpoint.source loc e c hc lg ∈ l →
      mapGet map loc.uri.str = none) :
    collectBpts map l = ([], []) := by
  induction l with
  | nil => rfl
  | cons b0 rest ih =>
    have ihr := ih (fun loc e c hc lg hm =>
      h loc e c hc lg (List.mem_cons_of_mem _ hm))
    cases b0 with
    | func nm en cn hn ln => simpa [collectBpts] using ihr
    | source loc2 e2 c2 hc2 lg2 =>
      have hg2 := h loc2 e2 c2 hc2 lg2 (List.mem_cons_self _ _)
      simpa [collectBpts, hg2] using ihr

theorem fix_calls_eq (doc : NotebookDocument) (bpts : List VBreakpoint)
    (hm : (computeMismatchMap doc).length > 0) :
    removedOf (fixBreakpoints doc bpts).calls
      = (collectBpts (computeMismatchMap doc) bpts).1 ∧
    addedOf (fixBreakpoints doc bpts).calls
      = (collectBpts (computeMismatchMap doc) bpts).2 ∧
    (fixBreakpoints doc bpts).breakpoints
      = bpts.filter
          (fun b => ¬ b ∈ (collectBpts (computeMismatchMap doc) bpts).1)
        ++ (collectBpts (computeMismatchMap doc) bpts).2 := by
  simp only [fixBreakpoints, if_pos hm]
  by_cases hr : (collectBpts (computeMismatchMap doc) bpts).1.length > 0 <;>
    by_cases ha : (collectBpts (computeMismatchMap doc) bpts).2.length > 0 <;>
      simp_all [removedOf, addedOf, List.length_eq_zero]

theorem fix_batch_counts (doc : NotebookDocument) (bpts : List VBreakpoint) :
    ((fixBreakpoints doc bpts).calls.filter isRemoveCall).length ≤ 1 ∧
    ((fixBreakpoints doc bpts).calls.filter isAddCall).length ≤ 1 := by
  by_cases hm : (computeMismatchMap doc).length > 0
  · simp only [fixBreakpoints, if_pos hm]
    by_cases hr : (collectBpts (computeMismatchMap doc) bpts).1.length > 0 <;>
      by_cases ha : (collectBpts (computeMismatchMap doc) bpts).2.length > 0 <;>
        simp [hr, ha, isRemoveCall, isAddCall]
  · simp [fixBreakpoints, hm]

/-! ## C8: fixBreakpoints rewrite, re-anchoring and batching -/

/-- C8: for every cell whose parsed fragment differs from its index,
`fixBreakpoints` maps the stale address to the same URI with the fragment
replaced by the current index zero-padded to 8 digits; every stored source
breakpoint anchored at a stale address is removed and re-added at the
corrected address with its range preserved; and at most one batched remove
call and at most one batched add call are issued. -/
theorem C8_fix_details (doc : NotebookDocument) (bpts : List VBreakpoint)
    (hnd : (doc.cells.map (fun c => c.uri.str)).Nodup) :
    (∀ ix cell, doc.cells[ix]? = some cell →
      parseIntLeading cell.uri.fragment ≠ some ix →
      mapGet (computeMismatchMap doc) cell.uri.str
        = some (cell.uri.withFragment (padStart8 (Nat.repr ix)))) ∧
    (∀ loc e c hc lg s, VBreakpoint.source loc e c hc lg ∈ bpts →
      mapGet (computeMismatchMap doc) loc.uri.str = some s →
      VBreakpoint.source loc e c hc lg
        ∈ removedOf (fixBreakpoints doc bpts).calls ∧
      VBreakpoint.source ⟨s, loc.range⟩ true none none none
        ∈ addedOf (fixBreakpoints doc bpts).calls) ∧
    ((fixBreakpoints doc bpts).calls.filter isRemoveCall).length ≤ 1 ∧
    ((fixBreakpoints doc bpts).calls.filter isAddCall).length ≤ 1 := by
  refine ⟨?_, ?_, (fix_batch_counts doc bpts).1, (fix_batch_counts doc bpts).2⟩
  · intro ix cell hget hmm
    have hmem : (ix, cell) ∈ doc.cells.enum :=
      List.mk_mem_enum_iff_getElem?.mpr hget
    have huniq : ∀ q ∈ doc.cells.enum, q.2.uri.str = cell.uri.str →
        q = (ix, cell) := by
      intro q hq he
      obtain ⟨ix', cell'⟩ := q
      have hget' : doc.cells[ix']? = some cell' :=
        List.mk_mem_enum_iff_getElem?.mp hq
      have h1 : (doc.cells.map (fun c => c.uri.str))[ix']?
          = some cell'.uri.str := by
        simp [List.getElem?_map, hget']
      have h2 : (doc.cells.map (fun c => c.uri.str))[ix]?
          = some cell.uri.str := by
        simp [List.getElem?_map, hget]
      have hlen : ix' < (doc.cells.map (fun c => c.uri.str)).length := by
        obtain ⟨hlt, _⟩ := List.getElem?_eq_some.mp h1
        exact hlt
      have hixeq : ix' = ix := List.getElem?_inj hlen hnd (by rw [h1, h2, he])
      subst hixeq
      rw [hget'] at hget
      have : cell' = cell := by injection hget
      rw [this]
    exact mismatch_fold_lookup_mem doc.cells.enum [] ix cell hmem hmm huniq
  · intro loc e c hc lg s hmem hget
    have hm : (computeMismatchMap doc).length > 0 := by
      cases hmap0 : computeMismatchMap doc with
      | nil => rw [hmap0] at hget; simp [mapGet] at hget
      | cons p rest => simp [hmap0]
    obtain ⟨hrem, hadd, _⟩ := fix_calls_eq doc bpts hm
    rw [hrem, hadd]
    exact collectBpts_mem _ bpts loc e c hc lg s hmem hget

/-- C8 witness: in the swapped two-cell document, cell `cA` (index 0,
fragment `00000001`) is mapped to its URI with fragment `00000000`; the
breakpoint anchored at the stale address is removed and re-added at the
corrected address with the same range, with at most one batched call of each
kind. -/
theorem C8_fix_details_witness :
    (swapDoc.cells.map (fun c => c.uri.str)).Nodup ∧
    mapGet (computeMismatchMap swapDoc) cA.uri.str
      = some (cA.uri.withFragment (padStart8 (Nat.repr 0))) ∧
    (bpA ∈ removedOf (fixBreakpoints swapDoc [bpA]).calls ∧
      VBreakpoint.source ⟨uB, ⟨1, 0, 1, 0⟩⟩ true none none none
        ∈ addedOf (fixBreakpoints swapDoc [bpA]).calls) ∧
    ((fixBreakpoints swapDoc [bpA]).calls.filter isRemoveCall).length ≤ 1 ∧
    ((fixBreakpoints swapDoc [bpA]).calls.filter isAddCall).length ≤ 1 :=
  ⟨by decide,
   (C8_fix_details swapDoc [bpA] (by decide)).1 0 cA (by decide) (by decide),
   (C8_fix_details swapDoc [bpA] (by decide)).2.1 ⟨uA, ⟨1, 0, 1, 0⟩⟩
     true none none none uB (by decide) (by decide),
   (C8_fix_details swapDoc [bpA] (by decide)).2.2.1,
   (C8_fix_details swapDoc [bpA] (by decide)).2.2.2⟩

/-! ## C10: only source breakpoints, defaults not carried over -/

/-- C10: `fixBreakpoints` removes and adds only source breakpoints — function
breakpoints are never touched and survive in the store — and every added
breakpoint is constructed from the corrected location alone, with default
enabled state and no condition, hit condition or log message carried over. -/
theorem C10_only_source_breakpoints (doc : NotebookDocument)
    (bpts : List VBreakpoint) :
    (∀ b, b ∈ removedOf (fixBreakpoints doc bpts).calls ∨
        b ∈ addedOf (fixBreakpoints doc bpts).calls →
      ∃ loc e c hc lg, b = VBreakpoint.source loc e c hc lg) ∧
    (∀ nm e c hc lg, VBreakpoint.func nm e c hc lg ∈ bpts →
      VBreakpoint.func nm e c hc lg ∈ (fixBreakpoints doc bpts).breakpoints) ∧
    (∀ b ∈ addedOf (fixBreakpoints doc bpts).calls,
      ∃ loc, b = VBreakpoint.source loc true none none none) := by
  by_cases hm : (computeMismatchMap doc).length > 0
  · obtain ⟨hrem, hadd, hbp⟩ := fix_calls_eq doc bpts hm
    refine ⟨?_, ?_, ?_⟩
    · intro b hb
      rcases hb with hb | hb
      · rw [hrem] at hb
        obtain ⟨_, loc, e, c, hc, lg, _, hbeq, _⟩ :=
          collectBpts_remove_shape _ bpts b hb
        exact ⟨loc, e, c, hc, lg, hbeq⟩
      · rw [hadd] at hb
        obtain ⟨u, rg, hbeq, _⟩ := collectBpts_add_shape _ bpts b hb
        exact ⟨⟨u, rg⟩, true, none, none, none, hbeq⟩
    · intro nm e c hc lg hmem
      rw [hbp]
      refine List.mem_append.mpr (Or.inl ?_)
      rw [List.mem_filter]
      refine ⟨hmem, ?_⟩
      simp only [decide_eq_true_eq]
      intro hin
      obtain ⟨_, loc, e', c', hc', lg', _, hbeq, _⟩ :=
        collectBpts_remove_shape _ bpts _ hin
      cases hbeq
    · intro b hb
      rw [hadd] at hb
      obtain ⟨u, rg, hbeq, _⟩ := collectBpts_add_shape _ bpts b hb
      exact ⟨⟨u, rg⟩, hbeq⟩
  · refine ⟨?_, ?_, ?_⟩ <;> simp [fixBreakpoints, hm, removedOf, addedOf]

/-- C10 witness: in the swapped document with a source and a function
breakpoint stored, the added breakpoint carries only the corrected location
and defaults, and the function breakpoint survives untouched. -/
theorem C10_only_source_breakpoints_witness :
    (∃ loc, VBreakpoint.source ⟨uB, ⟨1, 0, 1, 0⟩⟩ true none none none
      = VBreakpoint.source loc true none none none) ∧
    bpF ∈ (fixBreakpoints swapDoc [bpA, bpF]).breakpoints :=
  ⟨(C10_only_source_breakpoints swapDoc [bpA, bpF]).2.2 _ (by decide),
   (C10_only_source_breakpoints swapDoc [bpA, bpF]).2.1 "main" true
     (some "x > 0") none none (by decide)⟩

/-! ## C4: idempotence of the repair -/

/-- C4 (counterexample): in the swapped two-cell document the corrected
address of each cell is the other cell's stale address, so the second
`fixBreakpoints` run finds the re-anchored breakpoint matching a stale
address again and issues another remove/add round — the claim that a second
run with no intervening document mutation issues no operations is false. -/
theorem C4_counterexample :
    (fixBreakpoints swapDoc (fixBreakpoints swapDoc [bpA]).breakpoints).calls
      ≠ [] := by
  decide

/-- C4 (amended): `fixBreakpoints` never touches the cells' URIs, so
fragment/index mismatches persist; the repair is nevertheless operation-free
on a second run provided no corrected address collides with another cell's
stale address: if every corrected URI in the mismatch map is itself absent
from the map's keys, the second run issues no breakpoint calls. -/
theorem C4_second_run_noop (doc : NotebookDocument) (bpts : List VBreakpoint)
    (hc : ∀ e ∈ computeMismatchMap doc,
      mapGet (computeMismatchMap doc) e.2.str = none) :
    (fixBreakpoints doc (fixBreakpoints doc bpts).breakpoints).calls = [] := by
  by_cases hm : (computeMismatchMap doc).length > 0
  · obtain ⟨_, _, hbp⟩ := fix_calls_eq doc bpts hm
    have hnomatch : ∀ loc e c hc' lg,
        VBreakpoint.source loc e c hc' lg
          ∈ (fixBreakpoints doc bpts).breakpoints →
        mapGet (computeMismatchMap doc) loc.uri.str = none := by
      intro loc e c hc' lg hmem
      rw [hbp] at hmem
      rcases List.mem_append.mp hmem with hmem | hmem
      · rw [List.mem_filter] at hmem
        obtain ⟨hin, hnr⟩ := hmem
        cases hg : mapGet (computeMismatchMap doc) loc.uri.str with
        | none => rfl
        | some s =>
          exfalso
          have hr := (collectBpts_mem (computeMismatchMap doc) bpts
            loc e c hc' lg s hin hg).1
          simp only [decide_eq_true_eq] at hnr
          exact hnr hr
      · obtain ⟨u, rg, hbeq, k, hk⟩ :=
          collectBpts_add_shape (computeMismatchMap doc) bpts _ hmem
        have hmm := mapGet_mem hk
        have hnone := hc (k, u) hmm
        obtain ⟨h1, _⟩ := VBreakpoint.source.inj hbeq
        rw [h1]
        exact hnone
    set nb := (fixBreakpoints doc bpts).breakpoints with hnb
    have hcoll := collectBpts_nil (computeMismatchMap doc) nb hnomatch
    simp only [fixBreakpoints, if_pos hm, hcoll]
    simp
  · simp [fixBreakpoints, hm]

/-- C4 witness: for the one-cell document with a non-numeric fragment the
corrected address collides with nothing, so after one repair pass a second
pass issues no calls at all. -/
theorem C4_second_run_noop_witness :
    (∀ e ∈ computeMismatchMap fragDoc,
      mapGet (computeMismatchMap fragDoc) e.2.str = none) ∧
    (fixBreakpoints fragDoc (fixBreakpoints fragDoc [bpN]).breakpoints).calls
      = [] :=
  ⟨by decide, C4_second_run_noop fragDoc [bpN] (by decide)⟩

/-! ## Lemmas about dumpCell sequences -/

theorem dumpCell_none_state (doc : NotebookDocument) (st : AdapterState)
    (uri : String) : (dumpCell doc st uri none).1 = st := by
  cases h : doc.cells.find? (fun c => c.uri.str = uri) <;> simp [dumpCell, h]

theorem dumpCell_some_state (doc : NotebookDocument) (st : AdapterState)
    (uri p : String) (cell : Cell)
    (hfind : doc.cells.find? (fun c => c.uri.str = uri) = some cell) :
    (dumpCell doc st uri (some p)).1 =
      { fileToCell := mapSet st.fileToCell p cell
        cellToFile := mapSet st.cellToFile cell.uri.str p } := by
  simp [dumpCell, hfind]

theorem bij_step (st : AdapterState) (cell : Cell) (p : String)
    (hb : mapsBijective st)
    (hcf : mapGet st.cellToFile cell.uri.str = none)
    (hfc : mapGet st.fileToCell p = none) :
    mapsBijective
      { fileToCell := mapSet st.fileToCell p cell
        cellToFile := mapSet st.cellToFile cell.uri.str p } := by
  obtain ⟨hnk1, hnk2, hfwd, hbwd⟩ := hb
  refine ⟨mapSet_keys_nodup _ _ hnk1, mapSet_keys_nodup _ _ hnk2, ?_, ?_⟩
  · intro e he
    rcases mem_mapSet_cases he with he | ⟨hemem, _⟩
    · subst he
      simp only [mapGet_mapSet_self]
      rfl
    · have hold := hfwd e hemem
      have hep : e.2 ≠ p := by
        intro he2
        rw [he2, hfc] at hold
        cases hold
      simp only [mapGet_mapSet_ne _ _ _ _ hep]
      exact hold
  · intro e he
    rcases mem_mapSet_cases he with he | ⟨hemem, _⟩
    · subst he
      simp only [mapGet_mapSet_self]
    · have hold := hbwd e hemem
      have hne2 : e.2.uri.str ≠ cell.uri.str := by
        intro he2
        rw [he2, hcf] at hold
        cases hold
      simp only [mapGet_mapSet_ne _ _ _ _ hne2]
      exact hold

theorem runDumps_bij (doc : NotebookDocument)
    (steps : List (String × Option String)) :
    ∀ st : AdapterState,
    mapsBijective st →
    ((successPairs doc steps).map (fun q => q.1.uri.str)).Nodup →
    ((successPairs doc steps).map Prod.snd).Nodup →
    (∀ q ∈ successPairs doc steps, mapGet st.cellToFile q.1.uri.str = none) →
    (∀ q ∈ successPairs doc steps, mapGet st.fileToCell q.2 = none) →
    mapsBijective (runDumps doc st steps) := by
  induction steps with
  | nil => intro st hb _ _ _ _; exact hb
  | cons step rest ih =>
    obtain ⟨uri, out⟩ := step
    intro st hb hn1 hn2 hf1 hf2
    show mapsBijective (runDumps doc (dumpCell doc st uri out).1 rest)
    cases hfind : doc.cells.find? (fun c => c.uri.str = uri) with
    | none =>
      have hsp : successPairs doc ((uri, out) :: rest)
          = successPairs doc rest := by
        cases out <;> simp [successPairs, hfind]
      rw [hsp] at hn1 hn2 hf1 hf2
      rw [show (dumpCell doc st uri out).1 = st by
        cases out <;> simp [dumpCell, hfind]]
      exact ih st hb hn1 hn2 hf1 hf2
    | some cell =>
      cases out with
      | none =>
        have hsp : successPairs doc ((uri, none) :: rest)
            = successPairs doc rest := by
          simp [successPairs, hfind]
        rw [hsp] at hn1 hn2 hf1 hf2
        rw [dumpCell_none_state doc st uri]
        exact ih st hb hn1 hn2 hf1 hf2
      | some p =>
        have hsp : successPairs doc ((uri, some p) :: rest)
            = (cell, p) :: successPairs doc rest := by
          simp [successPairs, hfind]
        rw [hsp] at hn1 hn2 hf1 hf2
        simp only [List.map_cons, List.nodup_cons] at hn1 hn2
        have hcf := hf1 (cell, p) (List.mem_cons_self _ _)
        have hfc := hf2 (cell, p) (List.mem_cons_self _ _)
        rw [dumpCell_some_state doc st uri p cell hfind]
        apply ih
        · exact bij_step st cell p hb hcf hfc
        · exact hn1.2
        · exact hn2.2
        · intro q hq
          have hne : q.1.uri.str ≠ cell.uri.str := by
            intro he
            exact hn1.1 (List.mem_map.mpr ⟨q, hq, he⟩)
          show mapGet (mapSet st.cellToFile cell.uri.str p) q.1.uri.str = none
          rw [mapGet_mapSet_ne _ _ _ _ hne]
          exact hf1 q (List.mem_cons_of_mem _ hq)
        · intro q hq
          have hne : q.2 ≠ p := by
            intro he
            exact hn2.1 (List.mem_map.mpr ⟨q, hq, he⟩)
          show mapGet (mapSet st.fileToCell p cell) q.2 = none
          rw [mapGet_mapSet_ne _ _ _ _ hne]
          exact hf2 q (List.mem_cons_of_mem _ hq)

/-! ## C3: cell↔file correspondence -/

/-- C3 (counterexample): materializing the same cell twice with two different
host-returned paths leaves a stale `fileToCell` entry (`p1 ↦ cA`) whose
`cellToFile` counterpart now points at `p2`, so the two maps are not a
bijective correspondence after that sequence — the claim is false for
re-materialization. -/
theorem C3_counterexample :
    ¬ mapsBijective
      (runDumps swapDoc ⟨[], []⟩ [(uA.str, some "p1"), (uA.str, some "p2")]) := by
  decide

/-- C3 (amended): a failed materialization writes neither map entry and a
successful one writes both together (atomicity, unconditionally); and after
any sequence of materializations in which no cell address is successfully
materialized twice and the host-returned file paths are pairwise distinct,
the two maps are a bijective correspondence: each map's keys are
duplicate-free, every `cellToFile` entry is matched by the `fileToCell` entry
for its file holding the same cell, and vice versa. -/
theorem C3_atomic_and_bijective (doc : NotebookDocument)
    (steps : List (String × Option String)) :
    (∀ st uri, (dumpCell doc st uri none).1 = st) ∧
    (∀ st uri p cell,
      doc.cells.find? (fun c => c.uri.str = uri) = some cell →
      (dumpCell doc st uri (some p)).1 =
        { fileToCell := mapSet st.fileToCell p cell
          cellToFile := mapSet st.cellToFile cell.uri.str p }) ∧
    (((successPairs doc steps).map (fun q => q.1.uri.str)).Nodup →
      ((successPairs doc steps).map Prod.snd).Nodup →
      mapsBijective (runDumps doc ⟨[], []⟩ steps)) := by
  refine ⟨fun st uri => dumpCell_none_state doc st uri,
    fun st uri p cell hfind => dumpCell_some_state doc st uri p cell hfind,
    fun hn1 hn2 => ?_⟩
  apply runDumps_bij doc steps ⟨[], []⟩ ?_ hn1 hn2
  · intro q _; rfl
  · intro q _; rfl
  · refine ⟨List.nodup_nil, List.nodup_nil, ?_, ?_⟩ <;> intro e he <;> cases he

/-- C3 witness: materializing the two distinct cells of the swapped document
to two distinct paths satisfies the freshness hypotheses, and the resulting
maps form a bijective correspondence. -/
theorem C3_atomic_and_bijective_witness :
    ((successPairs swapDoc [(uA.str, some "p1"), (uB.str, some "p2")]).map
      (fun q => q.1.uri.str)).Nodup ∧
    ((successPairs swapDoc [(uA.str, some "p1"), (uB.str, some "p2")]).map
      Prod.snd).Nodup ∧
    mapsBijective
      (runDumps swapDoc ⟨[], []⟩ [(uA.str, some "p1"), (uB.str, some "p2")]) :=
  ⟨by decide, by decide,
   (C3_atomic_and_bijective swapDoc [(uA.str, some "p1"), (uB.str, some "p2")]).2.2
     (by decide) (by decide)⟩

end JupyterDebug
